import Mathlib

/-!
# ptc-go: the PACTOR modem session driver (`ptc/pmodem.go`)

A shallow embedding of the session driver.  Bytes are natural numbers (the
`uint8` arithmetic of the source is written with an explicit `% 256`), Go
strings and byte slices are `List Nat`, the serial transport is an explicit
state (`Port`) threaded through every operation, and the Go channels are the
queues they buffer.  The two locks protect single assignments and have no
sequential effect, so they do not appear.
-/

namespace Ptc

/-! ## Errors -/

/-- The error values that occur in `pmodem.go`, and those of its collaborators. -/
inductive Err where
  /-- `errors.New("Use of closed connection")` -/
  | closedConn
  /-- `errors.New(fmt.Sprintf("serial device %s vanished!", p.deviceName))` -/
  | vanished
  /-- `errors.New(fmt.Sprintf("timeout while reading %d bytes", noofbytes))` -/
  | timeout (noofbytes : Nat)
  /-- `errors.New("Command length is negative on rawwrite command")` -/
  | negativeLength
  /-- `io.EOF` -/
  | eof
  /-- `io.ErrNoProgress`, raised by `bufio` after 100 empty reads -/
  | noProgress
  /-- Any other error value reported by the transport. -/
  | transport (code : Nat)
  deriving DecidableEq, Repr

/-! ## The serial transport -/

/-- What the transport serves to the reads: a byte, or the end of what one
`Read` call gets (a short read, with the error that call reports, if any). -/
inductive Ev where
  | byte (b : Nat)
  | stop (e : Option Err)
  deriving DecidableEq, Repr

/-- The serial device (`p.device`, `p.deviceName`).
* `gone`: `os.Stat(p.deviceName)` reports that the device file does not exist;
* `werr`: the error `Write` reports;
* `rx`: what the device will serve to the coming reads;
* `tx`: the byte slices handed to `Write` so far, oldest first.

No operation of the driver changes `gone` or `werr`: a run is followed on a
device that stays present or absent, and whose writes all end alike. -/
structure Port where
  gone : Bool
  werr : Option Err
  rx : List Ev
  tx : List (List Nat)
  deriving DecidableEq, Repr

/-- One `Read` call into a buffer of `k` bytes, on the pending events: bytes
are taken until the buffer is full or a `stop` is met (which is consumed); an
exhausted stream reports `io.EOF`. -/
def takeRead : Nat → List Ev → List Nat × Option Err × List Ev
  | 0, evs => ([], none, evs)
  | _ + 1, [] => ([], some Err.eof, [])
  | _ + 1, Ev.stop e :: rest => ([], e, rest)
  | k + 1, Ev.byte b :: rest =>
    let r := takeRead k rest
    (b :: r.1, r.2.1, r.2.2)

/-- The transport read `p.device.Read(buf)` with `len(buf) = k`: the bytes read
(`n` is their number), the error, and the device afterwards. -/
def Port.Read (d : Port) (k : Nat) : (List Nat × Option Err) × Port :=
  let r := takeRead k d.rx
  ((r.1, r.2.1), { d with rx := r.2.2 })

/-- The transport write `p.device.Write(bytes)`. -/
def Port.Write (d : Port) (bytes : List Nat) : Option Err × Port :=
  (d.werr, { d with tx := d.tx ++ [bytes] })

/-! ## The session -/

/-- The session (`type pmodem struct`).  `rxbuffer` and `cmdbuffer` are the
contents of the buffered channels, oldest first.  The channels `rts` and `rtd`
are unbuffered, so they hold nothing between a send and its receive. -/
structure pmodem where
  mycall : List Nat
  remotecall : List Nat
  closecalled : Bool
  rxbuffer : List (List Nat)
  device : Port
  txbuffer : List Nat
  cmdbuffer : List (List Nat)
  state : Int
  err : Option Err
  deriving DecidableEq, Repr

def pactorch : Nat := 4
def maxtxbuffer : Nat := 128
/-- Capacity of the channels `rxbuffer` and `cmdbuffer` (`make(chan []byte, 8192)`). -/
def chancap : Nat := 8192

/-- The command strings, as bytes. -/
def strD : List Nat := [68]
def strG : List Nat := [71]
def strL : List Nat := [76]
def strJHOST0 : List Nat := [74, 72, 79, 83, 84, 48]
def strCRLF : List Nat := [13, 10]
/-- `string(byte(0))` -/
def strNUL : List Nat := [0]

/-- `binary.Write(buf, binary.LittleEndian, in)` of a `[]uint8` writes the bytes. -/
def inttobin (input : List Nat) : List Nat := input

/-- `rawwrite(channel, iscommand, command)`; `l` is a `uint8`. -/
def rawwrite (p : pmodem) (channel iscommand : Nat) (command : List Nat) :
    Option Err × pmodem :=
  let l : Nat := (command.length % 256 + 255) % 256
  let cmd := command
  let init := inttobin [channel, iscommand, l]
  if l < 0 then (some Err.negativeLength, p)
  else if p.device.gone then (some Err.vanished, p)
  else
    let w := p.device.Write (init ++ cmd)
    (w.1, { p with device := w.2 })

/-- `readbyte(noofbytes)`: the buffer (zeroed, then filled by the read) and the error. -/
def readbyte (p : pmodem) (noofbytes : Nat) : (List Nat × Option Err) × pmodem :=
  let buf := List.replicate noofbytes 0
  if p.device.gone then ((buf, some Err.vanished), p)
  else
    let r := p.device.Read noofbytes
    let n := r.1.1.length
    let buf := r.1.1 ++ buf.drop n
    let err := if n ≠ noofbytes then some (Err.timeout noofbytes) else r.1.2
    ((buf, err), { p with device := r.2 })

/-- `endwa8ded()` -/
def endwa8ded (p : pmodem) : Option Err × pmodem :=
  let p := (rawwrite p pactorch 1 strD).2
  let p := (readbyte p 2).2
  let p := (rawwrite p 0 1 strJHOST0).2
  let w := p.device.Write strCRLF
  (w.1, { p with device := w.2 })

/-- `Close()`.  The `select` waits for `rtd` or for 60 seconds; whichever comes
first, no field of the session changes there. -/
def Close (p : pmodem) : Option Err × pmodem :=
  let p := (rawwrite p pactorch 1 strD).2
  let r := readbyte p 2
  let p := { r.2 with err := r.1.2 }
  if p.closecalled then (p.err, p)
  else
    let p := { p with closecalled := true }
    let p := (endwa8ded p).2
    (p.err, p)

/-- `HandleIOError(hint, err)` -/
def HandleIOError (p : pmodem) (err : Option Err) : pmodem :=
  match err with
  | none => p
  | some e =>
    if p.closecalled == false then (Close { p with err := some e }).2
    else (endwa8ded p).2

/-- `checkState()` -/
def checkState (p : pmodem) : Option Err :=
  if p.err ≠ none then p.err
  else if p.closecalled then some Err.closedConn
  else none

/-- `copy(b, msg)`: the first `min(len(b), len(msg))` bytes of `b` are overwritten. -/
def copy (b msg : List Nat) : List Nat :=
  msg.take b.length ++ b.drop msg.length

/-- `Read(b)`: the session, the caller's buffer, `n` and `err` after the call;
`none` when the call does not return (it sleeps for as long as the inbound
queue is empty, and in a sequential run nobody fills it).  Once the queue is
seen non-empty the receive of the `select` is ready, so the one second timer
of its other case does not fire. -/
def Read (p : pmodem) (b : List Nat) : Option (pmodem × List Nat × Nat × Option Err) :=
  match checkState p with
  | some e => some (p, b, 0, some e)
  | none =>
    match p.rxbuffer with
    | [] => none
    | msg :: rest => some ({ p with rxbuffer := rest }, copy b msg, msg.length, none)

/-- `Write(b)`: the session, `n` and `err` after the call.  `rts` tells whether
the receive `<-p.rts` gets the signal; without it the call does not return
(`none`). -/
def Write (p : pmodem) (b : List Nat) (rts : Bool) : Option (pmodem × Nat × Option Err) :=
  match checkState p with
  | some e => some (p, 0, some e)
  | none =>
    if rts then
      let p := { p with txbuffer := p.txbuffer ++ b }
      some (p, p.txbuffer.length, none)
    else none

/-! ## Line reading -/

/-- How a call ends: it returns, it panics, or it never returns. -/
inductive Run (α : Type) where
  | done (a : α)
  | crash
  | hang
  deriving DecidableEq, Repr

/-- The interface `reader`: `ReadString(delim)` gives the line, the error and
the reader afterwards (`none`: the call does not return). -/
structure reader (ρ : Type) where
  ReadString : ρ → Nat → Option ((List Nat × Option Err) × ρ)

/-- The loop of `read(r, delim)`, entered with `line` as accumulated so far;
the first argument bounds the number of iterations. -/
def readLoop {ρ : Type} (R : reader ρ) : Nat → ρ → List Nat → List Nat →
    Run ((List Nat × Option Err) × ρ)
  | 0, _, _, _ => Run.hang
  | fuel + 1, r, delim, line =>
    match delim.getLast? with
    | none => Run.crash
    | some c =>
      match R.ReadString r c with
      | none => Run.hang
      | some ((_, some e), r) => Run.done ((line, some e), r)
      | some ((s, none), r) =>
        let line := line ++ s
        if delim.isSuffixOf line then
          Run.done ((line.take (line.length - delim.length), none), r)
        else readLoop R fuel r delim line

/-- `read(r, delim)` -/
def read {ρ : Type} (R : reader ρ) (fuel : Nat) (r : ρ) (delim : List Nat) :
    Run ((List Nat × Option Err) × ρ) :=
  readLoop R fuel r delim []

/-- A reader that serves a stream of bytes and errors, as `ReadString` is
documented: it reads until the first occurrence of `delim`, returning the data
up to and including the delimiter; if it meets an error before finding a
delimiter, it returns the data read before the error and the error itself.  The
end of the stream is `io.EOF`. -/
def streamReadString : List Ev → Nat → List Nat → (List Nat × Option Err) × List Ev
  | [], _, acc => ((acc, some Err.eof), [])
  | Ev.stop none :: rest, delim, acc => streamReadString rest delim acc
  | Ev.stop (some e) :: rest, _, acc => ((acc, some e), rest)
  | Ev.byte b :: rest, delim, acc =>
    if b = delim then ((acc ++ [b], none), rest)
    else streamReadString rest delim (acc ++ [b])

def streamReader : reader (List Ev) where
  ReadString := fun r delim => some (streamReadString r delim [])

/-- The state of a `bufio.Reader`: the underlying device, the bytes read from
it and not yet returned, and the pending read error. -/
structure bufioReader where
  rd : Port
  buf : List Nat
  err : Option Err
  deriving DecidableEq, Repr

/-- `bufio.NewReader(p.device)`; the buffer holds 4096 bytes. -/
def NewReader (d : Port) : bufioReader := { rd := d, buf := [], err := none }

/-- `fill()` of `bufio.Reader`: reads once into the free part of the buffer,
trying again (at most `i` times, 100 in `bufio`) while nothing arrives. -/
def bufioReader.fill : Nat → bufioReader → bufioReader
  | 0, b => { b with err := some Err.noProgress }
  | i + 1, b =>
    let r := b.rd.Read (4096 - b.buf.length)
    let b := { b with rd := r.2, buf := b.buf ++ r.1.1 }
    if r.1.2 ≠ none then { b with err := r.1.2 }
    else if r.1.1.length > 0 then b
    else bufioReader.fill i b

/-- `ReadString(delim)` of `bufio.Reader`, with `acc` the full buffers collected
so far; the first argument bounds the number of iterations. -/
def bufioReader.ReadStringLoop : Nat → bufioReader → Nat → List Nat →
    Option ((List Nat × Option Err) × bufioReader)
  | 0, _, _, _ => none
  | fuel + 1, b, delim, acc =>
    match b.buf.span (fun x => x != delim) with
    | (pre, _ :: post) => some ((acc ++ pre ++ [delim], none), { b with buf := post })
    | (_, []) =>
      match b.err with
      | some e => some ((acc ++ b.buf, some e), { b with buf := [], err := none })
      | none =>
        if b.buf.length ≥ 4096 then
          bufioReader.ReadStringLoop fuel { b with buf := [] } delim (acc ++ b.buf)
        else bufioReader.ReadStringLoop fuel (b.fill 100) delim acc

/-- `bufio.Reader` as a `reader`.  Every iteration but the last consumes an
event of the device or empties a full buffer. -/
def bufioReader.asReader : reader bufioReader where
  ReadString := fun b delim => bufioReader.ReadStringLoop (2 * b.rd.rx.length + 4) b delim []

/-- `readuntil(answer)`.  The buffered reader is dropped on return, and with it
the bytes it has read beyond the answer. -/
def readuntil (p : pmodem) (answer : List Nat) : Run ((List Nat × Option Err) × pmodem) :=
  let reader := NewReader p.device
  match read bufioReader.asReader (p.device.rx.length + 2) reader answer with
  | Run.done (res, r) => Run.done (res, { p with device := r.rd })
  | Run.crash => Run.crash
  | Run.hang => Run.hang

/-! ## The engine -/

/-- Where control is after a block of `mainloop`: at the statement that follows
it (`next`), out of `mainloop` by `return` (`ret`), in a run-time panic, or
blocked for good. -/
inductive Flow where
  | next (p : pmodem)
  | ret (p : pmodem)
  | crash
  | hang
  deriving DecidableEq, Repr

def Flow.andThen (f : Flow) (k : pmodem → Flow) : Flow :=
  match f with
  | Flow.next p => k p
  | g => g

/-- The body of the cases `0x01` to `0x05` of the dispatch: a null terminated
message is read and dropped. -/
def dropMessage (p : pmodem) : Flow :=
  match readuntil p strNUL with
  | Run.crash => Flow.crash
  | Run.hang => Flow.hang
  | Run.done ((_, err), p) =>
    if err ≠ none then Flow.ret (HandleIOError p err) else Flow.next p

/-- The `switch b[1]` of `mainloop`, `b` being the two bytes read after the
G-command.  Every path that reaches the end of the switch leaves `err` nil, so
the check that follows the switch in the source never fires.  The send
`p.rxbuffer <- data` blocks when the channel is full. -/
def dispatch (p : pmodem) (b : List Nat) : Flow :=
  match b.getD 1 0 with
  | 0 => Flow.next p
  | 1 => dropMessage p
  | 2 => dropMessage p
  | 3 => dropMessage p
  | 4 => dropMessage p
  | 5 => dropMessage p
  | 6 =>
    let length := readbyte p 1
    let r := readbyte length.2 (length.1.1.headD 0 + 1)
    if r.1.2 ≠ none then Flow.ret (HandleIOError r.2 r.1.2) else Flow.next r.2
  | 7 =>
    let length := readbyte p 1
    if length.1.2 ≠ none then Flow.ret (HandleIOError length.2 length.1.2) else
    let data := readbyte length.2 (length.1.1.headD 0 + 1)
    if data.1.2 ≠ none then Flow.ret (HandleIOError data.2 data.1.2) else
    if data.2.rxbuffer.length < chancap then
      Flow.next { data.2 with rxbuffer := data.2.rxbuffer ++ [data.1.1] }
    else Flow.hang
  | _ => Flow.next p

/-- The head of a cycle: a queued command is sent, then the G-command, its two
byte answer is read and dispatched on. -/
def poll (p : pmodem) : Flow :=
  let p := match p.cmdbuffer with
    | [] => p
    | cmd :: rest => (rawwrite { p with cmdbuffer := rest } pactorch 1 cmd).2
  let w := rawwrite p pactorch 1 strG
  if w.1 ≠ none then Flow.ret (HandleIOError w.2 w.1) else
  let b := readbyte w.2 2
  if b.1.2 ≠ none then Flow.ret (HandleIOError b.2 b.1.2) else
  dispatch b.2 b.1.1

/-- The link status query of a cycle ("check if we are still connected"). -/
def linkStatus (p : pmodem) : Flow :=
  let w := rawwrite p pactorch 1 strL
  if w.1 ≠ none then Flow.ret (HandleIOError w.2 w.1) else
  let b := readbyte w.2 2
  if b.1.2 ≠ none then Flow.ret (HandleIOError b.2 b.1.2) else
  match readuntil b.2 strNUL with
  | Run.crash => Flow.crash
  | Run.hang => Flow.hang
  | Run.done ((l, err), p) =>
    if err ≠ none then Flow.ret (HandleIOError p err) else
    match l.getLast? with
    | none => Flow.crash
    | some status =>
      let p := { p with state := (status : Int) - 48 }
      if status = 51 then Flow.ret (Close p).2
      else Flow.next p

/-- The transmit step of a cycle ("handle payload"). -/
def transmit (p : pmodem) : Flow :=
  if p.txbuffer.length ≠ 0 then
    let p := (rawwrite p pactorch 1 strL).2
    let p := (readbyte p 2).2
    match readuntil p strNUL with
    | Run.crash => Flow.crash
    | Run.hang => Flow.hang
    | Run.done ((l, err), p) =>
      if err ≠ none then Flow.ret (HandleIOError p err) else
      match l.getLast? with
      | none => Flow.crash
      | some status =>
        if status = 48 ∨ status = 49 ∨ status = 51 then Flow.ret { p with txbuffer := [] }
        else if status = 52 then
          let trxdata := if p.txbuffer.length > 254 then p.txbuffer.take 254 else p.txbuffer
          let p := { p with
            txbuffer := if p.txbuffer.length > 254 then p.txbuffer.drop 254 else [] }
          let p := (rawwrite p pactorch 0 trxdata).2
          let p := (readbyte p 2).2
          Flow.next p
        else Flow.next p
  else Flow.next p

/-- One pass through the body of the loop of `mainloop`.  The two non-blocking
sends (`rts` when at most `maxtxbuffer` bytes are buffered, `rtd` when none is)
change no field of the session. -/
def cycle (p : pmodem) : Flow :=
  (poll p).andThen fun p => (linkStatus p).andThen fun p => transmit p

/-- `mainloop()`, for at most the given number of cycles; `next` is the loop
still running after that many. -/
def mainloop : Nat → pmodem → Flow
  | 0, p => Flow.next p
  | n + 1, p =>
    if p.closecalled == false then (cycle p).andThen (mainloop n) else Flow.ret p


/-! ## Observations on a run of the engine -/

/-- A slice handed to the transport is a payload frame when its flag byte is 0. -/
def isPayload (w : List Nat) : Bool := w.getD 1 1 == 0

/-- The payload frame `rawwrite(pactorch, 0, data)` writes. -/
def payloadFrame (data : List Nat) : List Nat := [pactorch, 0, data.length - 1] ++ data

/-- The status byte the transmit step gets from its link status query. -/
def txStatus (p : pmodem) : Option Nat :=
  match readuntil (readbyte (rawwrite p pactorch 1 strL).2 2).2 strNUL with
  | Run.done ((l, none), _) => l.getLast?
  | _ => none

/-- The device answers status "4" at the transmit readiness check of each of the
coming `n` cycles: every one of them reaches its transmit step, gets status "4"
there if it has bytes to send, and goes on to the next cycle. -/
def answers4 : Nat → pmodem → Bool
  | 0, _ => true
  | n + 1, p =>
    match (poll p).andThen linkStatus with
    | Flow.next p2 =>
      (p2.txbuffer.length == 0 || txStatus p2 == some 52) &&
        (match transmit p2 with
         | Flow.next q => answers4 n q
         | _ => false)
    | _ => false

/-- The answer to the link status query of a cycle: the status body and the
session once it is read, when the query and both reads succeed. -/
def statusBody (p : pmodem) : Option (List Nat × pmodem) :=
  let w := rawwrite p pactorch 1 strL
  if w.1 ≠ none then none else
  let b := readbyte w.2 2
  if b.1.2 ≠ none then none else
  match readuntil b.2 strNUL with
  | Run.done ((l, none), q) => some (l, q)
  | _ => none

/-! ## Sample sessions -/

/-- A session whose terminal error is set, on a device that answers. -/
def erroredSession : pmodem :=
  { mycall := [], remotecall := [], closecalled := false, rxbuffer := [],
    device := { gone := false, werr := none, tx := [],
                rx := [Ev.byte 4, Ev.byte 0, Ev.byte 4, Ev.byte 0] },
    txbuffer := [], cmdbuffer := [], state := 4, err := some (Err.timeout 1) }

/-- A session on which `Close` has run, with its terminal error, on a device that
still answers. -/
def closedSession : pmodem :=
  { mycall := [], remotecall := [], closecalled := true, rxbuffer := [],
    device := { gone := false, werr := none, tx := [],
                rx := [Ev.byte 4, Ev.byte 0] },
    txbuffer := [], cmdbuffer := [], state := 4, err := some (Err.timeout 1) }

/-- A healthy session with three bytes to send. -/
def healthySession : pmodem :=
  { mycall := [], remotecall := [], closecalled := false, rxbuffer := [],
    device := { gone := false, werr := none, tx := [], rx := [] },
    txbuffer := [1, 2, 3], cmdbuffer := [], state := 4, err := none }

/-- A healthy session with 300 bytes to send, on a device that answers two
cycles alike: no event at the poll, status "4" at the link status query, status
"4" at the transmit readiness check, and the acknowledgement of the payload
frame. -/
def chunkedSession : pmodem :=
  { mycall := [], remotecall := [], closecalled := false, rxbuffer := [],
    device := { gone := false, werr := none, tx := [],
                rx := [Ev.byte 4, Ev.byte 0,
                       Ev.byte 4, Ev.byte 1, Ev.byte 52, Ev.byte 0, Ev.stop none,
                       Ev.byte 4, Ev.byte 1, Ev.byte 52, Ev.byte 0, Ev.stop none,
                       Ev.byte 4, Ev.byte 0,
                       Ev.byte 4, Ev.byte 0,
                       Ev.byte 4, Ev.byte 1, Ev.byte 52, Ev.byte 0, Ev.stop none,
                       Ev.byte 4, Ev.byte 1, Ev.byte 52, Ev.byte 0, Ev.stop none,
                       Ev.byte 4, Ev.byte 0] },
    txbuffer := List.replicate 300 7, cmdbuffer := [], state := 4, err := none }

/-- A session with three bytes to send whose link is lost: the poll reports no
event, the link status query is answered with status "3", and the device
acknowledges the commands of `Close`. -/
def lostLinkSession : pmodem :=
  { mycall := [], remotecall := [], closecalled := false, rxbuffer := [],
    device := { gone := false, werr := none, tx := [],
                rx := [Ev.byte 4, Ev.byte 0,
                       Ev.byte 4, Ev.byte 1, Ev.byte 51, Ev.byte 0, Ev.stop none,
                       Ev.byte 4, Ev.byte 0, Ev.byte 4, Ev.byte 0] },
    txbuffer := [1, 2, 3], cmdbuffer := [], state := 4, err := none }

/-- A healthy session whose device reports, at the poll, a payload frame (type
`0x07`) with length byte 5 and the six bytes 10 to 15, and then status "4" at
the link status query. -/
def payloadSession : pmodem :=
  { mycall := [], remotecall := [], closecalled := false, rxbuffer := [],
    device := { gone := false, werr := none, tx := [],
                rx := [Ev.byte 4, Ev.byte 7, Ev.byte 5] ++ [10, 11, 12, 13, 14, 15].map Ev.byte
                       ++ [Ev.byte 4, Ev.byte 1, Ev.byte 52, Ev.byte 0, Ev.stop none] },
    txbuffer := [], cmdbuffer := [], state := 4, err := none }

/-- A healthy session whose device reports monitor data (type `0x06`) at the
poll and is late with the length byte: the read of the length byte ends empty,
one byte arrives after it, and the link status query is answered with "4". -/
def lateLengthSession : pmodem :=
  { mycall := [], remotecall := [], closecalled := false, rxbuffer := [],
    device := { gone := false, werr := none, tx := [],
                rx := [Ev.byte 4, Ev.byte 6, Ev.stop none, Ev.byte 9,
                       Ev.byte 4, Ev.byte 1, Ev.byte 52, Ev.byte 0, Ev.stop none] },
    txbuffer := [], cmdbuffer := [], state := 4, err := none }

/-- A healthy session with two messages in the inbound queue, of six and of two
bytes. -/
def queuedSession : pmodem :=
  { mycall := [], remotecall := [], closecalled := false,
    rxbuffer := [[10, 11, 12, 13, 14, 15], [20, 21]],
    device := { gone := false, werr := none, tx := [], rx := [] },
    txbuffer := [], cmdbuffer := [], state := 4, err := none }

/-! ## Frame writing -/

theorem uint8_len_pred (n : Nat) (h1 : 1 ≤ n) (h2 : n ≤ 256) :
    (n % 256 + 255) % 256 = n - 1 := by
  omega

/-- C4: with the device present, for a text of 1 to 256 bytes `rawwrite` hands
to the transport exactly the bytes channel, flag, len(text)-1 followed by the
text, that is len(text)+3 bytes, the third being len(text)-1 as a `uint8`; it
returns the write error of the transport. -/
theorem rawwrite_frame (p : pmodem) (channel flag : Nat) (text : List Nat)
    (hgone : p.device.gone = false) (h1 : 1 ≤ text.length) (h2 : text.length ≤ 256) :
    (rawwrite p channel flag text).2.device.tx
        = p.device.tx ++ [[channel, flag, text.length - 1] ++ text]
      ∧ ([channel, flag, text.length - 1] ++ text).length = text.length + 3
      ∧ text.length - 1 < 256
      ∧ (rawwrite p channel flag text).1 = p.device.werr := by
  have hl := uint8_len_pred text.length h1 h2
  refine ⟨?_, ?_, ?_, ?_⟩
  · simp [rawwrite, hgone, hl, inttobin, Port.Write]
  · simp
  · omega
  · simp [rawwrite, hgone, Port.Write]

theorem rawwrite_frame_witness :
    (rawwrite erroredSession 4 1 strG).2.device.tx
        = erroredSession.device.tx ++ [[4, 1, strG.length - 1] ++ strG]
      ∧ ([4, 1, strG.length - 1] ++ strG).length = strG.length + 3
      ∧ strG.length - 1 < 256
      ∧ (rawwrite erroredSession 4 1 strG).1 = erroredSession.device.werr :=
  rawwrite_frame erroredSession 4 1 strG (by decide) (by decide) (by decide)

/-! ## The consumer calls -/

/-- C1: evaluated on a session whose terminal error is `timeout 1` and whose
device answers the disconnect command with two bytes, `Close` returns nil and
leaves the terminal error nil; so does the call of `Close` that `HandleIOError`
makes right after it has recorded that error. -/
theorem Close_overwrites_terminal_error :
    erroredSession.err = some (Err.timeout 1)
      ∧ (Close erroredSession).1 = none
      ∧ (Close erroredSession).2.err = none
      ∧ (HandleIOError { erroredSession with err := none } (some (Err.timeout 1))).err
          = none := by
  decide

/-- C2: evaluated on a session on which `Close` has already run, a further
`Close` sends the disconnect command, reads two bytes from the transport and
replaces the terminal error. -/
theorem Close_again_touches_transport :
    closedSession.closecalled = true
      ∧ (Close closedSession).2.device.tx = closedSession.device.tx ++ [[4, 1, 0, 68]]
      ∧ closedSession.device.rx = [Ev.byte 4, Ev.byte 0]
      ∧ (Close closedSession).2.device.rx = []
      ∧ closedSession.err = some (Err.timeout 1)
      ∧ (Close closedSession).2.err = none
      ∧ (Close closedSession).1 = none := by
  decide

/-- C7: `Read` and `Write` return (0, the terminal error) when it is set,
otherwise (0, "Use of closed connection") when the teardown flag is set, in
both cases at once (also without the ready-to-send signal) and with the session
and the caller's buffer as they were; when neither is set they go on to the
inbound queue and to the ready-to-send signal. -/
theorem Read_Write_checkState (p : pmodem) (b : List Nat) (rts : Bool) :
    (∀ e, p.err = some e →
        Read p b = some (p, b, 0, some e) ∧ Write p b rts = some (p, 0, some e))
      ∧ (p.err = none → p.closecalled = true →
        Read p b = some (p, b, 0, some Err.closedConn)
          ∧ Write p b rts = some (p, 0, some Err.closedConn))
      ∧ (p.err = none → p.closecalled = false →
        Read p b = (match p.rxbuffer with
            | [] => none
            | msg :: rest => some ({ p with rxbuffer := rest }, copy b msg, msg.length, none))
          ∧ Write p b rts = (if rts then
              some ({ p with txbuffer := p.txbuffer ++ b }, (p.txbuffer ++ b).length, none)
            else none)) := by
  refine ⟨?_, ?_, ?_⟩
  · intro e he
    simp [Read, Write, checkState, he]
  · intro he hc
    simp [Read, Write, checkState, he, hc]
  · intro he hc
    simp [Read, Write, checkState, he, hc]

theorem Read_Write_checkState_witness :
    (∀ e, erroredSession.err = some e →
        Read erroredSession [7] = some (erroredSession, [7], 0, some e)
          ∧ Write erroredSession [7] false = some (erroredSession, 0, some e))
      ∧ Read closedSession [7] = some (closedSession, [7], 0, some (Err.timeout 1)) :=
  ⟨(Read_Write_checkState erroredSession [7] false).1,
   ((Read_Write_checkState closedSession [7] false).1 (Err.timeout 1) (by decide)).1⟩

/-- C10: on a healthy session a `Write(b)` that gets the ready-to-send signal
leaves the outbound buffer equal to the old content followed by `b` and returns
the length of the whole buffer with a nil error, which is `len(b)` exactly when
the buffer was empty. -/
theorem Write_appends (p : pmodem) (b : List Nat)
    (herr : p.err = none) (hclose : p.closecalled = false) :
    ∃ q n, Write p b true = some (q, n, none)
      ∧ q.txbuffer = p.txbuffer ++ b
      ∧ q = { p with txbuffer := p.txbuffer ++ b }
      ∧ n = p.txbuffer.length + b.length
      ∧ (n = b.length ↔ p.txbuffer = []) := by
  refine ⟨{ p with txbuffer := p.txbuffer ++ b }, p.txbuffer.length + b.length, ?_, rfl, rfl,
    rfl, ?_⟩
  · simp [Write, checkState, herr, hclose]
  · constructor
    · intro h
      exact List.length_eq_zero.mp (by omega)
    · intro h
      simp [h]

theorem Write_appends_witness :
    ∃ q n, Write healthySession [8, 9] true = some (q, n, none)
      ∧ q.txbuffer = healthySession.txbuffer ++ [8, 9]
      ∧ q = { healthySession with txbuffer := healthySession.txbuffer ++ [8, 9] }
      ∧ n = healthySession.txbuffer.length + [8, 9].length
      ∧ (n = [8, 9].length ↔ healthySession.txbuffer = []) :=
  Write_appends healthySession [8, 9] (by decide) (by decide)

/-! ## What the operations leave alone -/

/-- The device differs at most in its pending events. -/
def Port.Quiet (d d' : Port) : Prop :=
  d'.gone = d.gone ∧ d'.werr = d.werr ∧ d'.tx = d.tx

theorem Port.Quiet.same (d : Port) : Port.Quiet d d := ⟨rfl, rfl, rfl⟩

theorem Port.Quiet.andAfter {a b c : Port} (h1 : Port.Quiet a b) (h2 : Port.Quiet b c) :
    Port.Quiet a c :=
  ⟨h2.1.trans h1.1, h2.2.1.trans h1.2.1, h2.2.2.trans h1.2.2⟩

theorem Port.Read_quiet (d : Port) (k : Nat) : Port.Quiet d (d.Read k).2 := ⟨rfl, rfl, rfl⟩

theorem fill_quiet (i : Nat) (b : bufioReader) : Port.Quiet b.rd (bufioReader.fill i b).rd := by
  induction i generalizing b with
  | zero => exact Port.Quiet.same _
  | succ i ih =>
    simp only [bufioReader.fill]
    split_ifs
    · exact Port.Read_quiet _ _
    · exact Port.Read_quiet _ _
    · exact (Port.Read_quiet b.rd _).andAfter (ih _)

theorem ReadStringLoop_quiet (fuel : Nat) (b : bufioReader) (delim : Nat) (acc : List Nat)
    (res : List Nat × Option Err) (b' : bufioReader)
    (h : bufioReader.ReadStringLoop fuel b delim acc = some (res, b')) :
    Port.Quiet b.rd b'.rd := by
  induction fuel generalizing b acc with
  | zero => simp [bufioReader.ReadStringLoop] at h
  | succ fuel ih =>
    simp only [bufioReader.ReadStringLoop] at h
    split at h
    · simp only [Option.some.injEq, Prod.mk.injEq] at h
      rw [← h.2]
      exact Port.Quiet.same _
    · split at h
      · simp only [Option.some.injEq, Prod.mk.injEq] at h
        rw [← h.2]
        exact Port.Quiet.same _
      · split_ifs at h
        · exact ih { b with buf := [] } _ h
        · exact (fill_quiet 100 b).andAfter (ih _ _ h)

theorem readLoop_quiet (fuel : Nat) (r : bufioReader) (delim line : List Nat)
    (res : List Nat × Option Err) (r' : bufioReader)
    (h : readLoop bufioReader.asReader fuel r delim line = Run.done (res, r')) :
    Port.Quiet r.rd r'.rd := by
  induction fuel generalizing r line with
  | zero => simp [readLoop] at h
  | succ fuel ih =>
    simp only [readLoop] at h
    split at h
    · simp at h
    · split at h
      · simp at h
      · rename_i heq
        simp only [Run.done.injEq, Prod.mk.injEq] at h
        rw [← h.2]
        exact ReadStringLoop_quiet _ _ _ _ _ _ heq
      · rename_i heq
        have hq := ReadStringLoop_quiet _ _ _ _ _ _ heq
        split_ifs at h
        · simp only [Run.done.injEq, Prod.mk.injEq] at h
          rw [← h.2]
          exact hq
        · exact hq.andAfter (ih _ _ h)

/-- What `readuntil` changes of the session is the pending events of the device. -/
theorem readuntil_done (p q : pmodem) (answer : List Nat) (res : List Nat × Option Err)
    (h : readuntil p answer = Run.done (res, q)) :
    ∃ d, q = { p with device := d } ∧ Port.Quiet p.device d := by
  simp only [readuntil, read] at h
  split at h
  · rename_i res0 r heq
    simp only [Run.done.injEq, Prod.mk.injEq] at h
    refine ⟨r.rd, h.2.symm, ?_⟩
    exact readLoop_quiet _ _ _ _ _ _ heq
  · simp at h
  · simp at h

/-- From `p` to `q` the engine has neither stopped nor sent payload: the flags,
the terminal error and both buffers are as they were, and the transport has
been handed command frames only. -/
structure Steady (p q : pmodem) : Prop where
  closecalled : q.closecalled = p.closecalled
  err : q.err = p.err
  txbuffer : q.txbuffer = p.txbuffer
  gone : q.device.gone = p.device.gone
  werr : q.device.werr = p.device.werr
  tx : ∃ ws, q.device.tx = p.device.tx ++ ws ∧ ws.filter isPayload = []

theorem Steady.still (p : pmodem) : Steady p p :=
  ⟨rfl, rfl, rfl, rfl, rfl, [], by simp, rfl⟩

theorem Steady.followedBy {a b c : pmodem} (h1 : Steady a b) (h2 : Steady b c) : Steady a c := by
  obtain ⟨ws1, e1, f1⟩ := h1.tx
  obtain ⟨ws2, e2, f2⟩ := h2.tx
  refine ⟨h2.closecalled.trans h1.closecalled, h2.err.trans h1.err,
    h2.txbuffer.trans h1.txbuffer, h2.gone.trans h1.gone, h2.werr.trans h1.werr,
    ws1 ++ ws2, ?_, ?_⟩
  · rw [e2, e1, List.append_assoc]
  · rw [List.filter_append, f1, f2]; rfl

theorem rawwrite_steady (p : pmodem) (channel : Nat) (command : List Nat) :
    Steady p (rawwrite p channel 1 command).2 := by
  unfold rawwrite
  simp only [Nat.not_lt_zero, if_false]
  split_ifs
  · exact Steady.still p
  · exact ⟨rfl, rfl, rfl, rfl, rfl, [_], rfl, by simp [isPayload, inttobin]⟩

theorem rawwrite_gone (p : pmodem) (channel flag : Nat) (command : List Nat)
    (h : p.device.gone = true) : (rawwrite p channel flag command).1 = some Err.vanished := by
  simp [rawwrite, h]

theorem rawwrite_present (p : pmodem) (channel flag : Nat) (command : List Nat)
    (h : p.device.gone = false) :
    (rawwrite p channel flag command).2 = { p with device := { p.device with
      tx := p.device.tx ++ [[channel, flag, (command.length % 256 + 255) % 256] ++ command] } } := by
  simp [rawwrite, h, Port.Write, inttobin]

theorem readbyte_steady (p : pmodem) (k : Nat) : Steady p (readbyte p k).2 := by
  unfold readbyte
  split_ifs
  · exact Steady.still p
  · exact ⟨rfl, rfl, rfl, rfl, rfl, [], by simp [Port.Read], rfl⟩

theorem readbyte_rxbuffer (p : pmodem) (k : Nat) : (readbyte p k).2.rxbuffer = p.rxbuffer := by
  unfold readbyte
  split_ifs <;> rfl

theorem rawwrite_rxbuffer (p : pmodem) (channel flag : Nat) (command : List Nat) :
    (rawwrite p channel flag command).2.rxbuffer = p.rxbuffer := by
  unfold rawwrite
  split_ifs <;> rfl

theorem readuntil_steady (p q : pmodem) (answer : List Nat) (res : List Nat × Option Err)
    (h : readuntil p answer = Run.done (res, q)) : Steady p q ∧ q.rxbuffer = p.rxbuffer := by
  obtain ⟨d, rfl, hg, hw, ht⟩ := readuntil_done p q answer res h
  exact ⟨⟨rfl, rfl, rfl, hg, hw, [], by simp [ht], rfl⟩, rfl⟩

theorem dropMessage_next (p q : pmodem) (h : dropMessage p = Flow.next q) :
    Steady p q ∧ q.rxbuffer = p.rxbuffer := by
  unfold dropMessage at h
  split at h
  · simp at h
  · simp at h
  · rename_i heq
    split_ifs at h
    simp only [Flow.next.injEq] at h
    subst h
    exact readuntil_steady _ _ _ _ heq

theorem dispatch_next (p q : pmodem) (b : List Nat) (h : dispatch p b = Flow.next q) :
    Steady p q := by
  unfold dispatch at h
  split at h
  · simp only [Flow.next.injEq] at h; subst h; exact Steady.still p
  · exact (dropMessage_next p q h).1
  · exact (dropMessage_next p q h).1
  · exact (dropMessage_next p q h).1
  · exact (dropMessage_next p q h).1
  · exact (dropMessage_next p q h).1
  · simp only at h
    split_ifs at h
    simp only [Flow.next.injEq] at h
    subst h
    exact (readbyte_steady p 1).followedBy (readbyte_steady _ _)
  · simp only at h
    split_ifs at h
    simp only [Flow.next.injEq] at h
    subst h
    have h2 := (readbyte_steady p 1).followedBy
      (readbyte_steady (readbyte p 1).2 ((readbyte p 1).1.1.headD 0 + 1))
    exact ⟨h2.closecalled, h2.err, h2.txbuffer, h2.gone, h2.werr, h2.tx⟩
  · simp only [Flow.next.injEq] at h; subst h; exact Steady.still p

theorem poll_next (p q : pmodem) (h : poll p = Flow.next q) :
    Steady p q ∧ p.device.gone = false := by
  unfold poll at h
  simp only at h
  split_ifs at h with h1 h2
  have h3 : Steady p (match p.cmdbuffer with
      | [] => p
      | cmd :: rest => (rawwrite { p with cmdbuffer := rest } pactorch 1 cmd).2) := by
    split
    · exact Steady.still p
    · rename_i cmd rest _
      have := rawwrite_steady { p with cmdbuffer := rest } pactorch cmd
      exact ⟨this.closecalled, this.err, this.txbuffer, this.gone, this.werr, this.tx⟩
  have h4 := ((h3.followedBy (rawwrite_steady _ pactorch strG)).followedBy (readbyte_steady _ 2)).followedBy
    (dispatch_next _ _ _ h)
  refine ⟨h4, ?_⟩
  rw [← h3.gone]
  by_contra hg
  apply h1
  simp only [Bool.not_eq_false] at hg
  rw [rawwrite_gone _ _ _ _ hg]
  simp

theorem linkStatus_next (p q : pmodem) (h : linkStatus p = Flow.next q) :
    Steady p q ∧ q.rxbuffer = p.rxbuffer := by
  unfold linkStatus at h
  simp only at h
  split_ifs at h with h1 h2
  split at h
  · simp at h
  · simp at h
  · rename_i l err p2 heq
    split_ifs at h
    split at h
    · simp at h
    · split_ifs at h
      simp only [Flow.next.injEq] at h
      subst h
      have h5 := readuntil_steady _ _ _ _ heq
      have h3 := ((rawwrite_steady p pactorch strL).followedBy (readbyte_steady _ 2)).followedBy h5.1
      refine ⟨⟨h3.closecalled, h3.err, h3.txbuffer, h3.gone, h3.werr, h3.tx⟩, ?_⟩
      show p2.rxbuffer = p.rxbuffer
      rw [h5.2, readbyte_rxbuffer, rawwrite_rxbuffer]

/-! ## The transmit step -/

@[simp] theorem readbyte_txbuffer (p : pmodem) (k : Nat) :
    (readbyte p k).2.txbuffer = p.txbuffer := by
  unfold readbyte; split_ifs <;> rfl

@[simp] theorem readbyte_closecalled (p : pmodem) (k : Nat) :
    (readbyte p k).2.closecalled = p.closecalled := by
  unfold readbyte; split_ifs <;> rfl

@[simp] theorem readbyte_gone (p : pmodem) (k : Nat) :
    (readbyte p k).2.device.gone = p.device.gone := by
  unfold readbyte; split_ifs <;> rfl

@[simp] theorem readbyte_tx (p : pmodem) (k : Nat) :
    (readbyte p k).2.device.tx = p.device.tx := by
  unfold readbyte; split_ifs <;> rfl

@[simp] theorem rawwrite_txbuffer (p : pmodem) (channel flag : Nat) (command : List Nat) :
    (rawwrite p channel flag command).2.txbuffer = p.txbuffer := by
  unfold rawwrite; split_ifs <;> rfl

@[simp] theorem rawwrite_closecalled (p : pmodem) (channel flag : Nat) (command : List Nat) :
    (rawwrite p channel flag command).2.closecalled = p.closecalled := by
  unfold rawwrite; split_ifs <;> rfl

@[simp] theorem rawwrite_keeps_gone (p : pmodem) (channel flag : Nat) (command : List Nat) :
    (rawwrite p channel flag command).2.device.gone = p.device.gone := by
  unfold rawwrite; split_ifs <;> rfl

theorem take_drop_254 (t : List Nat) :
    (if t.length > 254 then t.take 254 else t) = t.take 254
      ∧ (if t.length > 254 then t.drop 254 else []) = t.drop 254 := by
  constructor
  · split_ifs with h
    · rfl
    · exact (List.take_of_length_le (by omega)).symm
  · split_ifs with h
    · rfl
    · exact (List.drop_of_length_le (by omega)).symm

/-- The transmit step when the device answers "4": the first 254 bytes of the
buffer (all of them if there are fewer) leave in one payload frame. -/
theorem transmit_ready (p : pmodem) (hne : p.txbuffer.length ≠ 0)
    (hgone : p.device.gone = false) (hst : txStatus p = some 52) :
    ∃ q, transmit p = Flow.next q ∧ q.txbuffer = p.txbuffer.drop 254
      ∧ q.closecalled = p.closecalled
      ∧ q.device.tx = p.device.tx
          ++ [[pactorch, 1, 0] ++ strL, payloadFrame (p.txbuffer.take 254)] := by
  unfold txStatus at hst
  unfold transmit
  simp only [hne, ne_eq, not_false_eq_true, if_true]
  split at hst
  · rename_i l p2 heq
    rw [heq]
    obtain ⟨d, rfl, hg, hw, ht⟩ := readuntil_done _ _ _ _ heq
    simp only [rawwrite_present p _ _ _ hgone, readbyte_gone, readbyte_tx] at hg ht
    have hlen : 1 ≤ (p.txbuffer.take 254).length ∧ (p.txbuffer.take 254).length ≤ 256 := by
      rw [List.length_take]; omega
    have hu := uint8_len_pred _ hlen.1 hlen.2
    simp only [hst, ne_eq, not_true_eq_false, if_false, readbyte_txbuffer,
      (take_drop_254 _).1, (take_drop_254 _).2]
    rw [hgone] at hg
    refine ⟨_, rfl, ?_, ?_, ?_⟩
    · simp
    · simp
    · rw [readbyte_tx, rawwrite_present _ _ _ _ hg]
      simp only [rawwrite_txbuffer, readbyte_txbuffer, ht, hu]
      simp [payloadFrame, strL]
  · simp at hst

theorem cycle_eq (p : pmodem) : cycle p = ((poll p).andThen linkStatus).andThen transmit := by
  unfold cycle
  cases poll p <;> rfl

theorem mainloop_chunks (n : Nat) : ∀ p : pmodem, p.closecalled = false →
    answers4 n p = true → 254 * n < p.txbuffer.length + 254 → p.txbuffer.length ≤ 254 * n →
    ∃ (q : pmodem) (ws chunks : List (List Nat)), mainloop n p = Flow.next q ∧ q.txbuffer = []
      ∧ q.device.tx = p.device.tx ++ ws
      ∧ ws.filter isPayload = chunks.map payloadFrame
      ∧ chunks.length = n
      ∧ (∀ c ∈ chunks, 1 ≤ c.length ∧ c.length ≤ 254)
      ∧ chunks.flatten = p.txbuffer := by
  induction n with
  | zero =>
    intro p _ _ _ hlen
    refine ⟨p, [], [], rfl, ?_, by simp, rfl, rfl, by simp, ?_⟩
    · exact List.length_eq_zero.mp (by omega)
    · have : p.txbuffer = [] := List.length_eq_zero.mp (by omega)
      simp [this]
  | succ n ih =>
    intro p hclose hans hlo hhi
    unfold answers4 at hans
    cases hpl : (poll p).andThen linkStatus with
    | ret _ => rw [hpl] at hans; simp at hans
    | crash => rw [hpl] at hans; simp at hans
    | hang => rw [hpl] at hans; simp at hans
    | next p2 =>
      rw [hpl] at hans
      simp only [Bool.and_eq_true, Bool.or_eq_true, beq_iff_eq] at hans
      obtain ⟨hst, htr⟩ := hans
      -- the head of the cycle
      have hp1 : ∃ p1, poll p = Flow.next p1 ∧ linkStatus p1 = Flow.next p2 := by
        cases hpoll : poll p with
        | next p1 => rw [hpoll] at hpl; exact ⟨p1, rfl, hpl⟩
        | ret _ => rw [hpoll] at hpl; simp [Flow.andThen] at hpl
        | crash => rw [hpoll] at hpl; simp [Flow.andThen] at hpl
        | hang => rw [hpoll] at hpl; simp [Flow.andThen] at hpl
      obtain ⟨p1, hpoll, hlink⟩ := hp1
      have hs1 := poll_next p p1 hpoll
      have hs := hs1.1.followedBy (linkStatus_next p1 p2 hlink).1
      have hgone : p2.device.gone = false := by rw [hs.gone]; exact hs1.2
      have hne : p2.txbuffer.length ≠ 0 := by rw [hs.txbuffer]; omega
      have hst4 : txStatus p2 = some 52 := by
        rcases hst with h | h
        · exact absurd h hne
        · exact h
      obtain ⟨q, hq, hqtx, hqc, hqlog⟩ := transmit_ready p2 hne hgone hst4
      rw [hq] at htr
      simp only at htr
      rw [hs.txbuffer] at hqtx
      have hqlen : q.txbuffer.length = p.txbuffer.length - 254 := by
        rw [hqtx, List.length_drop]
      obtain ⟨q', ws', chunks', hrun, hempty, hlog, hfil, hcnt, hsz, hjoin⟩ :=
        ih q (by rw [hqc, hs.closecalled, hclose]) htr (by omega) (by omega)
      obtain ⟨ws0, hws0, hfil0⟩ := hs.tx
      refine ⟨q', ws0 ++ [[pactorch, 1, 0] ++ strL, payloadFrame (p.txbuffer.take 254)] ++ ws',
        p.txbuffer.take 254 :: chunks', ?_, hempty, ?_, ?_, ?_, ?_, ?_⟩
      · simp only [mainloop, hclose, beq_self_eq_true, if_true]
        rw [cycle_eq, hpl]
        simp only [Flow.andThen, hq]
        exact hrun
      · rw [hlog, hqlog, hws0, hs.txbuffer]
        simp
      · simp only [List.filter_append, hfil0, hfil, List.map_cons]
        simp [isPayload, payloadFrame, strL]
      · simp [hcnt]
      · intro c hc
        rcases List.mem_cons.mp hc with rfl | hc
        · rw [List.length_take]; omega
        · exact hsz c hc
      · rw [List.flatten_cons, hjoin, hqtx, List.take_append_drop]

/-- C3: with `L` bytes buffered, no further write, and the device answering
status "4" at every transmit readiness check, the engine is still running after
`ceil(L/254)` cycles, the outbound buffer is empty, and the payload frames handed
to the transport in those cycles are exactly `ceil(L/254)` frames, in order,
each carrying 1 to 254 bytes behind its three byte header, their payloads
concatenated being the buffer content. -/
theorem transmit_in_chunks (p : pmodem) (hclose : p.closecalled = false)
    (h4 : answers4 ((p.txbuffer.length + 253) / 254) p = true) :
    ∃ (q : pmodem) (ws chunks : List (List Nat)), mainloop ((p.txbuffer.length + 253) / 254) p = Flow.next q
      ∧ q.txbuffer = []
      ∧ q.device.tx = p.device.tx ++ ws
      ∧ ws.filter isPayload = chunks.map payloadFrame
      ∧ chunks.length = (p.txbuffer.length + 253) / 254
      ∧ (∀ c ∈ chunks, 1 ≤ c.length ∧ c.length ≤ 254)
      ∧ chunks.flatten = p.txbuffer :=
  mainloop_chunks _ p hclose h4 (by omega) (by omega)

theorem transmit_in_chunks_witness :
    ∃ (q : pmodem) (ws chunks : List (List Nat)),
      mainloop ((chunkedSession.txbuffer.length + 253) / 254) chunkedSession = Flow.next q
      ∧ q.txbuffer = []
      ∧ q.device.tx = chunkedSession.device.tx ++ ws
      ∧ ws.filter isPayload = chunks.map payloadFrame
      ∧ chunks.length = (chunkedSession.txbuffer.length + 253) / 254
      ∧ (∀ c ∈ chunks, 1 ≤ c.length ∧ c.length ≤ 254)
      ∧ chunks.flatten = chunkedSession.txbuffer :=
  transmit_in_chunks chunkedSession (by decide)
    (by set_option maxRecDepth 100000 in decide)

/-! ## Link loss -/

@[simp] theorem rawwrite_err (p : pmodem) (channel flag : Nat) (command : List Nat) :
    (rawwrite p channel flag command).2.err = p.err := by
  unfold rawwrite; split_ifs <;> rfl

@[simp] theorem readbyte_err (p : pmodem) (k : Nat) : (readbyte p k).2.err = p.err := by
  unfold readbyte; split_ifs <;> rfl

theorem endwa8ded_fields (p : pmodem) :
    (endwa8ded p).2.closecalled = p.closecalled ∧ (endwa8ded p).2.txbuffer = p.txbuffer
      ∧ (endwa8ded p).2.err = p.err ∧ (endwa8ded p).2.device.gone = p.device.gone := by
  simp [endwa8ded, Port.Write]

theorem endwa8ded_tx (p : pmodem) (hgone : p.device.gone = false) :
    (endwa8ded p).2.device.tx
      = p.device.tx ++ [[pactorch, 1, 0] ++ strD, [0, 1, 5] ++ strJHOST0, strCRLF] := by
  unfold endwa8ded
  simp only [Port.Write]
  rw [rawwrite_present _ _ _ _ (by simpa using hgone), readbyte_tx,
    rawwrite_present _ _ _ _ hgone]
  simp [strD, strJHOST0]

theorem Close_fields (p : pmodem) :
    (Close p).2.closecalled = true ∧ (Close p).2.txbuffer = p.txbuffer
      ∧ (Close p).2.device.gone = p.device.gone := by
  unfold Close
  simp only
  split_ifs with h
  · simpa using h
  · simp [endwa8ded_fields]

theorem Close_tx (p : pmodem) (hgone : p.device.gone = false) (hclose : p.closecalled = false) :
    (Close p).2.device.tx = p.device.tx
      ++ [[pactorch, 1, 0] ++ strD, [pactorch, 1, 0] ++ strD, [0, 1, 5] ++ strJHOST0, strCRLF] := by
  unfold Close
  simp only [readbyte_closecalled, rawwrite_closecalled, hclose, Bool.false_eq_true, if_false]
  rw [endwa8ded_tx _ (by simpa using hgone)]
  simp only [readbyte_tx]
  rw [rawwrite_present _ _ _ _ hgone]
  simp [strD]

/-- C5, the counterexample: the link status query of the cycle is answered with
status "3" while three bytes are buffered; the cycle ends the loop with the
teardown flag set, and the three bytes are still in the outbound buffer. -/
theorem status3_buffer_not_discarded :
    ∃ p1 q, poll lostLinkSession = Flow.next p1
      ∧ Option.map Prod.fst (statusBody p1) = some [51]
      ∧ cycle lostLinkSession = Flow.ret q
      ∧ q.closecalled = true
      ∧ q.txbuffer = [1, 2, 3]
      ∧ q.txbuffer ≠ [] := by
  refine ⟨_, _, rfl, ?_, rfl, ?_, ?_, ?_⟩ <;> decide

/-- C5, as amended: when the link status query of a cycle is answered with a
status body whose last character is "3", whatever the outbound buffer holds,
the engine runs `Close` and returns from the loop: the teardown flag is set,
the outbound buffer is as it was, and after the query the transport is handed
the commands of `Close` only (disconnect, disconnect, leave hostmode, line end),
so no transmit step is made. -/
theorem status3_ends_session (p p1 q : pmodem) (l : List Nat) (n : Nat)
    (hclose : p.closecalled = false)
    (hpoll : poll p = Flow.next p1)
    (hbody : statusBody p1 = some (l, q)) (h3 : l.getLast? = some 51) :
    ∃ r, cycle p = Flow.ret r ∧ mainloop (n + 1) p = Flow.ret r
      ∧ r.closecalled = true
      ∧ r.txbuffer = p.txbuffer
      ∧ r.device.tx = q.device.tx
          ++ [[pactorch, 1, 0] ++ strD, [pactorch, 1, 0] ++ strD, [0, 1, 5] ++ strJHOST0,
              strCRLF] := by
  have hs1 := poll_next p p1 hpoll
  unfold statusBody at hbody
  simp only at hbody
  split_ifs at hbody with h1 h2
  split at hbody
  · rename_i l' q' heq
    simp only [Option.some.injEq, Prod.mk.injEq] at hbody
    obtain ⟨rfl, rfl⟩ := hbody
    have hs2 := ((rawwrite_steady p1 pactorch strL).followedBy (readbyte_steady _ 2)).followedBy
      (readuntil_steady _ _ _ _ heq).1
    have hs := hs1.1.followedBy hs2
    have hlink : linkStatus p1 = Flow.ret (Close { q' with state := ((51 : Nat) : Int) - 48 }).2 := by
      unfold linkStatus
      simp only [h1, h2, if_false, heq, h3, ne_eq, not_true_eq_false, if_true]
    have hcyc : cycle p = Flow.ret (Close { q' with state := ((51 : Nat) : Int) - 48 }).2 := by
      unfold cycle
      rw [hpoll]
      simp only [Flow.andThen, hlink]
    refine ⟨_, hcyc, ?_, (Close_fields _).1, ?_, ?_⟩
    · simp only [mainloop, hclose, beq_self_eq_true, if_true, hcyc, Flow.andThen]
    · rw [(Close_fields _).2.1]
      exact hs.txbuffer
    · rw [Close_tx _ (by rw [← hs1.2, ← hs.gone]) (by rw [← hclose, ← hs.closecalled])]
  · simp at hbody

theorem status3_ends_session_witness :
    ∃ r, cycle lostLinkSession = Flow.ret r ∧ mainloop (0 + 1) lostLinkSession = Flow.ret r
      ∧ r.closecalled = true
      ∧ r.txbuffer = lostLinkSession.txbuffer
      ∧ r.device.tx = [[4, 1, 0, 71], [4, 1, 0, 76]]
          ++ [[pactorch, 1, 0] ++ strD, [pactorch, 1, 0] ++ strD, [0, 1, 5] ++ strJHOST0,
              strCRLF] :=
  status3_ends_session lostLinkSession
    { lostLinkSession with device := { lostLinkSession.device with
        tx := [[4, 1, 0, 71]],
        rx := [Ev.byte 4, Ev.byte 1, Ev.byte 51, Ev.byte 0, Ev.stop none,
               Ev.byte 4, Ev.byte 0, Ev.byte 4, Ev.byte 0] } }
    { lostLinkSession with device := { lostLinkSession.device with
        tx := [[4, 1, 0, 71], [4, 1, 0, 76]],
        rx := [Ev.byte 4, Ev.byte 0, Ev.byte 4, Ev.byte 0] } }
    [51] 0 (by decide) (by decide) (by decide) (by decide)

/-! ## Inbound payload -/

theorem takeRead_bytes (bs : List Nat) (rest : List Ev) :
    takeRead bs.length (bs.map Ev.byte ++ rest) = (bs, none, rest) := by
  induction bs with
  | nil => simp [takeRead]
  | cons b bs ih => simp [takeRead, ih]

/-- When the device has the bytes wanted at hand, `readbyte` returns them. -/
theorem readbyte_bytes (p : pmodem) (bs : List Nat) (rest : List Ev) (k : Nat)
    (hgone : p.device.gone = false) (hrx : p.device.rx = bs.map Ev.byte ++ rest)
    (hk : k = bs.length) :
    readbyte p k = ((bs, none), { p with device := { p.device with rx := rest } }) := by
  subst hk
  simp [readbyte, hgone, Port.Read, hrx, takeRead_bytes]

@[simp] theorem rawwrite_rx (p : pmodem) (channel flag : Nat) (command : List Nat) :
    (rawwrite p channel flag command).2.device.rx = p.device.rx := by
  unfold rawwrite; split_ifs <;> rfl

@[simp] theorem rawwrite_werr (p : pmodem) (channel flag : Nat) (command : List Nat) :
    (rawwrite p channel flag command).2.device.werr = p.device.werr := by
  unfold rawwrite; split_ifs <;> rfl

theorem rawwrite_ok (p : pmodem) (channel flag : Nat) (command : List Nat)
    (hgone : p.device.gone = false) (hwerr : p.device.werr = none) :
    (rawwrite p channel flag command).1 = none := by
  simp [rawwrite, hgone, Port.Write, hwerr]

theorem transmit_next (p q : pmodem) (h : transmit p = Flow.next q) :
    q.rxbuffer = p.rxbuffer ∧ q.err = p.err ∧ q.closecalled = p.closecalled := by
  unfold transmit at h
  split_ifs at h with h0
  · simp only at h
    split at h
    · simp at h
    · simp at h
    · rename_i l err p2 heq
      obtain ⟨d, rfl, _⟩ := readuntil_done _ _ _ _ heq
      by_cases he : err = none
      · simp only [he, ne_eq, not_true_eq_false, if_false] at h
        cases hl : l.getLast? with
        | none => rw [hl] at h; simp at h
        | some status =>
          rw [hl] at h
          simp only at h
          by_cases h1 : status = 48 ∨ status = 49 ∨ status = 51
          · rw [if_pos h1] at h; simp at h
          · rw [if_neg h1] at h
            by_cases h2 : status = 52
            · rw [if_pos h2] at h
              simp only [Flow.next.injEq] at h
              subst h
              simp [readbyte_rxbuffer, rawwrite_rxbuffer]
            · rw [if_neg h2] at h
              simp only [Flow.next.injEq] at h
              subst h
              simp [readbyte_rxbuffer, rawwrite_rxbuffer]
      · rw [if_pos he] at h; simp at h
  · simp only [Flow.next.injEq] at h
    subst h
    exact ⟨rfl, rfl, rfl⟩

/-- C6: when the poll is answered with type `0x07` and length byte `k`, the engine
takes exactly the next `k+1` bytes from the transport and puts them, as they
are, as one message at the end of the inbound queue; if the cycle goes on to its
end the queue still holds it, and on a healthy session whose queue was empty a
`Read` into a buffer of at least `k+1` bytes then returns `n = k+1` with a nil
error and these bytes at the start of the buffer. -/
theorem payload_enqueued (p : pmodem) (ch k : Nat) (data : List Nat) (rest : List Ev)
    (b : List Nat)
    (hgone : p.device.gone = false) (hwerr : p.device.werr = none)
    (hrx : p.device.rx
      = Ev.byte ch :: Ev.byte 7 :: Ev.byte k :: (data.map Ev.byte ++ rest))
    (hdata : data.length = k + 1) (hroom : p.rxbuffer.length < chancap)
    (hb : k + 1 ≤ b.length) :
    ∃ q, poll p = Flow.next q
      ∧ q.device.rx = rest
      ∧ q.rxbuffer = p.rxbuffer ++ [data]
      ∧ (∀ r, cycle p = Flow.next r → r.rxbuffer = p.rxbuffer ++ [data]
          ∧ (p.err = none → p.closecalled = false → p.rxbuffer = [] →
              ∃ b', Read r b = some ({ r with rxbuffer := [] }, b', k + 1, none)
                ∧ b'.take (k + 1) = data ∧ b'.length = b.length)) := by
  -- the session once the queued command and the G-command are written
  obtain ⟨p0, hp0, hg0, hw0, hrx0, hrb0⟩ : ∃ p0 : pmodem,
      (match p.cmdbuffer with
        | [] => p
        | cmd :: rest => (rawwrite { p with cmdbuffer := rest } pactorch 1 cmd).2) = p0
      ∧ p0.device.gone = false ∧ p0.device.werr = none ∧ p0.device.rx = p.device.rx
      ∧ p0.rxbuffer = p.rxbuffer := by
    refine ⟨_, rfl, ?_⟩
    cases p.cmdbuffer with
    | nil => exact ⟨hgone, hwerr, rfl, rfl⟩
    | cons cmd tl => simp [hgone, hwerr, rawwrite_rxbuffer]
  have hG := rawwrite_ok p0 pactorch 1 strG hg0 hw0
  have h2 := readbyte_bytes (rawwrite p0 pactorch 1 strG).2 [ch, 7]
    (Ev.byte k :: (data.map Ev.byte ++ rest)) 2 (by simpa using hg0)
    (by simp [hrx0, hrx]) rfl
  have h1 := readbyte_bytes
    { (rawwrite p0 pactorch 1 strG).2 with device :=
        { (rawwrite p0 pactorch 1 strG).2.device with
          rx := Ev.byte k :: (data.map Ev.byte ++ rest) } }
    [k] (data.map Ev.byte ++ rest) 1 (by simpa using hg0) (by simp) rfl
  have hd := readbyte_bytes
    { (rawwrite p0 pactorch 1 strG).2 with device :=
        { (rawwrite p0 pactorch 1 strG).2.device with rx := data.map Ev.byte ++ rest } }
    data rest (k + 1) (by simpa using hg0) (by simp) hdata.symm
  have hroom' : (rawwrite p0 pactorch 1 strG).2.rxbuffer.length < chancap := by
    rw [rawwrite_rxbuffer, hrb0]; exact hroom
  have hpoll : poll p = Flow.next
      { (rawwrite p0 pactorch 1 strG).2 with
        device := { (rawwrite p0 pactorch 1 strG).2.device with rx := rest },
        rxbuffer := (rawwrite p0 pactorch 1 strG).2.rxbuffer ++ [data] } := by
    unfold poll
    simp only [hp0, hG, ne_eq, not_true_eq_false, if_false, h2]
    unfold dispatch
    simp only [List.getD_cons_succ, List.getD_cons_zero, h1, List.headD_cons, hd, ne_eq,
      not_true_eq_false, if_false, hroom', if_true]
  refine ⟨_, hpoll, rfl, ?_, ?_⟩
  · simp [rawwrite_rxbuffer, hrb0]
  · intro r hr
    have hrq : r.rxbuffer = p.rxbuffer ++ [data] ∧ r.err = p.err
        ∧ r.closecalled = p.closecalled := by
      unfold cycle at hr
      rw [hpoll] at hr
      simp only [Flow.andThen] at hr
      cases hl : linkStatus { (rawwrite p0 pactorch 1 strG).2 with
        device := { (rawwrite p0 pactorch 1 strG).2.device with rx := rest },
        rxbuffer := (rawwrite p0 pactorch 1 strG).2.rxbuffer ++ [data] } with
      | next p2 =>
        rw [hl] at hr
        simp only at hr
        have h3 := linkStatus_next _ _ hl
        have h4 := transmit_next _ _ hr
        have h5 := poll_next _ _ hpoll
        refine ⟨?_, ?_, ?_⟩
        · rw [h4.1, h3.2]; simp [rawwrite_rxbuffer, hrb0]
        · rw [h4.2.1, h3.1.err, h5.1.err]
        · rw [h4.2.2, h3.1.closecalled, h5.1.closecalled]
      | ret _ => rw [hl] at hr; simp at hr
      | crash => rw [hl] at hr; simp at hr
      | hang => rw [hl] at hr; simp at hr
    refine ⟨hrq.1, ?_⟩
    intro herr hclose hempty
    refine ⟨data ++ b.drop (k + 1), ?_, ?_, ?_⟩
    · have hq : r.rxbuffer = [data] := by rw [hrq.1, hempty]; rfl
      have hcopy : copy b data = data ++ b.drop (k + 1) := by
        unfold copy
        rw [List.take_of_length_le (by omega), hdata]
      simp [Read, checkState, hrq.2.1, hrq.2.2, herr, hclose, hq, hcopy, hdata]
    · rw [← hdata, List.take_left]
    · simp [hdata]; omega

theorem payload_enqueued_witness :
    ∃ q, poll payloadSession = Flow.next q
      ∧ q.device.rx = [Ev.byte 4, Ev.byte 1, Ev.byte 52, Ev.byte 0, Ev.stop none]
      ∧ q.rxbuffer = payloadSession.rxbuffer ++ [[10, 11, 12, 13, 14, 15]]
      ∧ (∀ r, cycle payloadSession = Flow.next r →
          r.rxbuffer = payloadSession.rxbuffer ++ [[10, 11, 12, 13, 14, 15]]
          ∧ (payloadSession.err = none → payloadSession.closecalled = false →
              payloadSession.rxbuffer = [] →
              ∃ b', Read r [0, 0, 0, 0, 0, 0, 0, 0] = some ({ r with rxbuffer := [] }, b', 5 + 1, none)
                ∧ b'.take (5 + 1) = [10, 11, 12, 13, 14, 15]
                ∧ b'.length = [0, 0, 0, 0, 0, 0, 0, 0].length)) :=
  payload_enqueued payloadSession 4 5 [10, 11, 12, 13, 14, 15]
    [Ev.byte 4, Ev.byte 1, Ev.byte 52, Ev.byte 0, Ev.stop none] [0, 0, 0, 0, 0, 0, 0, 0]
    (by decide) (by decide) (by decide) (by decide) (by decide) (by decide)

/-! ## Read failures in the dispatch -/

/-- C8: evaluated on a session whose poll is answered with type `0x06` and whose
length byte is late: the read of the length byte fails with a timeout, the
dispatch goes on all the same, the link status query of the same cycle is sent,
and the cycle ends with no terminal error and the teardown flag unset. -/
theorem length_read_failure_ignored :
    ∃ p1 q, readbyte (rawwrite lateLengthSession pactorch 1 strG).2 2 = (([4, 6], none), p1)
      ∧ (readbyte p1 1).1 = ([0], some (Err.timeout 1))
      ∧ dispatch p1 [4, 6] = Flow.next (readbyte (readbyte p1 1).2 1).2
      ∧ cycle lateLengthSession = Flow.next q
      ∧ q.device.tx = [[4, 1, 0, 71], [4, 1, 0, 76]]
      ∧ q.err = none ∧ q.closecalled = false := by
  refine ⟨_, _, rfl, ?_, ?_, rfl, ?_, ?_, ?_⟩ <;> decide

/-! ## Reading up to a delimiter -/

theorem streamReadString_found (u : List Nat) (c : Nat) (tail : List Ev) (acc : List Nat)
    (hu : c ∉ u) :
    streamReadString (u.map Ev.byte ++ Ev.byte c :: tail) c acc
      = ((acc ++ u ++ [c], none), tail) := by
  induction u generalizing acc with
  | nil => simp [streamReadString]
  | cons a u ih =>
    have ha : a ≠ c := fun h => hu (by simp [h])
    have hu' : c ∉ u := fun h => hu (by simp [h])
    simp [streamReadString, ha, ih _ hu']

theorem streamReadString_error (u : List Nat) (c : Nat) (e : Err) (tail : List Ev)
    (acc : List Nat) (hu : c ∉ u) :
    streamReadString (u.map Ev.byte ++ Ev.stop (some e) :: tail) c acc
      = ((acc ++ u, some e), tail) := by
  induction u generalizing acc with
  | nil => simp [streamReadString]
  | cons a u ih =>
    have ha : a ≠ c := fun h => hu (by simp [h])
    have hu' : c ∉ u := fun h => hu (by simp [h])
    simp [streamReadString, ha, ih _ hu']

theorem streamReadString_eof (u : List Nat) (c : Nat) (acc : List Nat) (hu : c ∉ u) :
    streamReadString (u.map Ev.byte) c acc = ((acc ++ u, some Err.eof), []) := by
  induction u generalizing acc with
  | nil => simp [streamReadString]
  | cons a u ih =>
    have ha : a ≠ c := fun h => hu (by simp [h])
    have hu' : c ∉ u := fun h => hu (by simp [h])
    simp [streamReadString, ha, ih _ hu']

/-- The loop of `read` on a stream that holds the delimiter: `line` is what has
been read, `rem` what is left up to the end of the first occurrence. -/
theorem readLoop_found (d pre : List Nat) (c : Nat) (rest : List Ev)
    (hc : d.getLast? = some c)
    (hfirst : ∀ x, x <+: pre ++ d.dropLast → ¬ d <:+ x) :
    ∀ (fuel : Nat) (line rem : List Nat), line ++ rem = pre ++ d → rem ≠ [] →
      rem.length ≤ fuel →
      readLoop streamReader fuel (rem.map Ev.byte ++ rest) d line
        = Run.done ((pre, none), rest) := by
  have hd : d.dropLast ++ [c] = d := List.dropLast_append_getLast? c hc
  intro fuel
  induction fuel with
  | zero =>
    intro line rem _ hne hlen
    exact absurd (List.length_eq_zero.mp (Nat.le_zero.mp hlen)) hne
  | succ fuel ih =>
    intro line rem hT hne hlen
    -- `rem` ends in the last byte of the delimiter
    have hlast : rem.getLast? = some c := by
      have h1 : (line ++ rem).getLast? = some c := by
        rw [hT, List.getLast?_append, hc]; rfl
      rw [List.getLast?_append] at h1
      cases hr : rem.getLast? with
      | none => exact absurd (List.getLast?_eq_none_iff.mp hr) hne
      | some a => rw [hr] at h1; simpa using h1
    obtain ⟨ys, hys⟩ := List.getLast?_eq_some_iff.mp hlast
    have hmem : c ∈ rem := by rw [hys]; simp
    obtain ⟨u, v, huv, hu⟩ := List.eq_append_cons_of_mem hmem
    have hstep : streamReader.ReadString (rem.map Ev.byte ++ rest) c
        = some ((u ++ [c], none), v.map Ev.byte ++ rest) := by
      simp only [streamReader]
      rw [huv]
      have := streamReadString_found u c (v.map Ev.byte ++ rest) [] hu
      simp only [List.nil_append] at this
      simp only [List.map_append, List.map_cons, List.append_assoc, List.cons_append, this]
    simp only [readLoop, hc, hstep]
    by_cases hv : v = []
    · subst hv
      have hline : line ++ (u ++ [c]) = pre ++ d := by rw [← hT, huv]
      have hsuf : d.isSuffixOf (line ++ (u ++ [c])) = true := by
        rw [List.isSuffixOf_iff_suffix, hline]
        exact List.suffix_append pre d
      simp only [hsuf, if_true, List.map_nil, List.nil_append]
      rw [hline]
      simp
    · have hvlast : v.getLast? = some c := by
        obtain ⟨a, v', rfl⟩ := List.exists_cons_of_ne_nil hv
        rw [huv, List.getLast?_append, List.getLast?_cons_cons] at hlast
        cases h : (a :: v').getLast? with
        | none => simp at h
        | some b => rw [h] at hlast; simpa using hlast
      obtain ⟨v0, hv0⟩ := List.getLast?_eq_some_iff.mp hvlast
      have hpre : line ++ (u ++ [c]) ++ v0 = pre ++ d.dropLast := by
        have h2 : (line ++ (u ++ [c]) ++ v0) ++ [c] = (pre ++ d.dropLast) ++ [c] := by
          rw [List.append_assoc pre, hd, ← hT, huv, hv0]
          simp
        exact List.append_cancel_right h2
      have hnot : d.isSuffixOf (line ++ (u ++ [c])) = false := by
        rw [Bool.eq_false_iff]
        intro h
        rw [List.isSuffixOf_iff_suffix] at h
        exact hfirst _ ⟨v0, hpre⟩ h
      simp only [hnot, Bool.false_eq_true, if_false]
      apply ih
      · rw [← hT, huv]; simp
      · exact hv
      · rw [huv] at hlen
        simp only [List.length_append, List.length_cons] at hlen
        omega

/-- The loop of `read` on a stream in which the reader reports `e` before the
delimiter has been read in full. -/
theorem readLoop_error (d : List Nat) (c : Nat) (e : Err) (tail rest : List Ev)
    (hc : d.getLast? = some c)
    (htail : ∀ u acc, c ∉ u →
      streamReadString (u.map Ev.byte ++ tail) c acc = ((acc ++ u, some e), rest)) :
    ∀ (fuel : Nat) (line rem : List Nat), (∀ x, x <+: line ++ rem → ¬ d <:+ x) →
      rem.length < fuel →
      ∃ line', readLoop streamReader fuel (rem.map Ev.byte ++ tail) d line
        = Run.done ((line', some e), rest) := by
  intro fuel
  induction fuel with
  | zero => intro line rem _ hlen; omega
  | succ fuel ih =>
    intro line rem hno hlen
    by_cases hmem : c ∈ rem
    · obtain ⟨u, v, huv, hu⟩ := List.eq_append_cons_of_mem hmem
      have hstep : streamReader.ReadString (rem.map Ev.byte ++ tail) c
          = some ((u ++ [c], none), v.map Ev.byte ++ tail) := by
        simp only [streamReader]
        rw [huv]
        have := streamReadString_found u c (v.map Ev.byte ++ tail) [] hu
        simp only [List.nil_append] at this
        simp only [List.map_append, List.map_cons, List.append_assoc, List.cons_append, this]
      have hnot : d.isSuffixOf (line ++ (u ++ [c])) = false := by
        rw [Bool.eq_false_iff]
        intro h
        rw [List.isSuffixOf_iff_suffix] at h
        refine hno _ ⟨v, ?_⟩ h
        rw [huv]; simp
      simp only [readLoop, hc, hstep, hnot, Bool.false_eq_true, if_false]
      apply ih
      · intro x hx
        apply hno
        rw [huv]
        simpa using hx
      · rw [huv] at hlen
        simp only [List.length_append, List.length_cons] at hlen
        omega
    · refine ⟨line, ?_⟩
      have hstep : streamReader.ReadString (rem.map Ev.byte ++ tail) c
          = some ((rem, some e), rest) := by
        simp only [streamReader]
        rw [htail rem [] hmem]
        simp
      simp only [readLoop, hc, hstep]

/-- C9: for a non-empty delimiter `d`, on a reader that serves a stream of
bytes, `read` returns without error exactly the bytes before the first
occurrence of `d` and leaves the reader right behind that occurrence; when the
reader reports an error (or the end of the stream) before an occurrence of `d`
has been read in full, `read` returns that error.  The number of iterations
allowed need only exceed the number of bytes read. -/
theorem read_until_delimiter (d : List Nat) (hd : d ≠ []) :
    (∀ (pre : List Nat) (rest : List Ev) (fuel : Nat),
        ¬ d <:+: pre ++ d.dropLast → (pre ++ d).length ≤ fuel →
        read streamReader fuel ((pre ++ d).map Ev.byte ++ rest) d
          = Run.done ((pre, none), rest))
      ∧ (∀ (bs : List Nat) (e : Err) (rest : List Ev) (fuel : Nat),
        ¬ d <:+: bs → bs.length < fuel →
        ∃ line, read streamReader fuel (bs.map Ev.byte ++ Ev.stop (some e) :: rest) d
          = Run.done ((line, some e), rest))
      ∧ (∀ (bs : List Nat) (fuel : Nat),
        ¬ d <:+: bs → bs.length < fuel →
        ∃ line, read streamReader fuel (bs.map Ev.byte) d
          = Run.done ((line, some Err.eof), [])) := by
  obtain ⟨c, hc⟩ : ∃ c, d.getLast? = some c := by
    cases h : d.getLast? with
    | none => exact absurd (List.getLast?_eq_none_iff.mp h) hd
    | some c => exact ⟨c, rfl⟩
  refine ⟨?_, ?_, ?_⟩
  · intro pre rest fuel hfirst hfuel
    unfold read
    apply readLoop_found d pre c rest hc
    · intro x hx hsuf
      exact hfirst (List.infix_iff_suffix_prefix.mpr ⟨x, hsuf, hx⟩)
    · rfl
    · intro h
      have : d = [] := (List.append_eq_nil.mp h).2
      exact hd this
    · exact hfuel
  · intro bs e rest fuel hno hfuel
    unfold read
    apply readLoop_error d c e (Ev.stop (some e) :: rest) rest hc
    · intro u acc hu
      exact streamReadString_error u c e rest acc hu
    · intro x hx hsuf
      exact hno (List.infix_iff_suffix_prefix.mpr ⟨x, hsuf, by simpa using hx⟩)
    · exact hfuel
  · intro bs fuel hno hfuel
    unfold read
    have := readLoop_error d c Err.eof [] [] hc
      (fun u acc hu => by simpa using streamReadString_eof u c acc hu) fuel [] bs
      (fun x hx hsuf =>
        hno (List.infix_iff_suffix_prefix.mpr ⟨x, hsuf, by simpa using hx⟩)) hfuel
    simpa using this

theorem read_until_delimiter_witness :
    [2, 3, 4] ≠ [] ∧ ¬ [2, 3, 4] <:+: [1, 2, 3, 2] ++ [2, 3, 4].dropLast
      ∧ read streamReader 7 (([1, 2, 3, 2] ++ [2, 3, 4]).map Ev.byte ++ [Ev.byte 9]) [2, 3, 4]
        = Run.done (([1, 2, 3, 2], none), [Ev.byte 9]) :=
  ⟨by decide, by decide,
    (read_until_delimiter [2, 3, 4] (by decide)).1 [1, 2, 3, 2] [Ev.byte 9] 7
      (by decide) (by decide)⟩

/-! ## `readuntil` returns

The bounds on the iterations in `bufioReader.asReader` and in `readuntil` are
never reached: for a non-empty answer `readuntil` returns, with the answer or
with an error. -/

theorem takeRead_length (k : Nat) (evs : List Ev) :
    (takeRead k evs).1.length + (takeRead k evs).2.2.length ≤ evs.length := by
  induction k generalizing evs with
  | zero => simp [takeRead]
  | succ k ih =>
    cases evs with
    | nil => simp [takeRead]
    | cons ev rest =>
      cases ev with
      | byte b =>
        have := ih rest
        simp only [takeRead, List.length_cons]
        omega
      | stop e => simp [takeRead]

theorem takeRead_progress (k : Nat) (evs : List Ev) (hk : 0 < k)
    (h : (takeRead k evs).2.1 = none) : (takeRead k evs).2.2.length < evs.length := by
  cases k with
  | zero => omega
  | succ k =>
    cases evs with
    | nil => simp [takeRead] at h
    | cons ev rest =>
      cases ev with
      | byte b =>
        have := takeRead_length k rest
        simp only [takeRead, List.length_cons]
        omega
      | stop e => simp [takeRead]

theorem fill_measure (i : Nat) (b : bufioReader) :
    (bufioReader.fill i b).buf.length + (bufioReader.fill i b).rd.rx.length
      ≤ b.buf.length + b.rd.rx.length := by
  induction i generalizing b with
  | zero => simp [bufioReader.fill]
  | succ i ih =>
    have h1 := takeRead_length (4096 - b.buf.length) b.rd.rx
    simp only [bufioReader.fill]
    split_ifs
    · simp only [Port.Read, List.length_append]; omega
    · simp only [Port.Read, List.length_append]; omega
    · refine le_trans (ih _) ?_
      simp only [Port.Read, List.length_append]; omega

theorem fill_progress (i : Nat) (b : bufioReader) (hb : b.buf.length < 4096)
    (h : (bufioReader.fill i b).err = none) :
    (bufioReader.fill i b).rd.rx.length < b.rd.rx.length := by
  induction i generalizing b with
  | zero => simp [bufioReader.fill] at h
  | succ i ih =>
    simp only [bufioReader.fill] at h ⊢
    split_ifs at h ⊢ with h1 h2
    · exact absurd h h1
    · simp only [ne_eq, not_not] at h1
      exact takeRead_progress _ _ (by omega) h1
    · simp only [ne_eq, not_not] at h1
      have hlen : (b.rd.Read (4096 - b.buf.length)).1.1.length = 0 := by omega
      have h3 := ih { b with rd := (b.rd.Read (4096 - b.buf.length)).2,
                             buf := b.buf ++ (b.rd.Read (4096 - b.buf.length)).1.1 }
        (by simp only [List.length_append, hlen]; omega) h
      have h4 := takeRead_progress _ b.rd.rx (by omega : 0 < 4096 - b.buf.length) h1
      exact lt_trans h3 h4

theorem ReadStringLoop_returns (fuel : Nat) (b : bufioReader) (delim : Nat) (acc : List Nat)
    (h : (b.err ≠ none ∧ 1 ≤ fuel)
      ∨ 2 * b.rd.rx.length + (if 4096 ≤ b.buf.length then 4 else 3) ≤ fuel) :
    ∃ res b', bufioReader.ReadStringLoop fuel b delim acc = some (res, b') := by
  induction fuel generalizing b acc with
  | zero =>
    rcases h with h | h
    · omega
    · split_ifs at h <;> omega
  | succ fuel ih =>
    simp only [bufioReader.ReadStringLoop]
    split
    · exact ⟨_, _, rfl⟩
    · split
      · exact ⟨_, _, rfl⟩
      · rename_i herr
        have h' : 2 * b.rd.rx.length + (if 4096 ≤ b.buf.length then 4 else 3) ≤ fuel + 1 := by
          rcases h with h | h
          · exact absurd herr h.1
          · exact h
        split_ifs with hfull
        · apply ih
          right
          have : 4096 ≤ b.buf.length := hfull
          simp only [this, if_true] at h'
          simp only [List.length_nil]
          simp only [show ¬ (4096 ≤ 0) by omega, if_false]
          omega
        · have hnot : ¬ 4096 ≤ b.buf.length := hfull
          simp only [hnot, if_false] at h'
          apply ih
          by_cases he : (bufioReader.fill 100 b).err = none
          · right
            have := fill_progress 100 b (by omega) he
            split_ifs <;> omega
          · left
            exact ⟨he, by omega⟩

theorem ReadStringLoop_consumes (fuel : Nat) (b b' : bufioReader) (delim : Nat)
    (acc s : List Nat)
    (h : bufioReader.ReadStringLoop fuel b delim acc = some ((s, none), b')) :
    b'.buf.length + b'.rd.rx.length < b.buf.length + b.rd.rx.length := by
  induction fuel generalizing b acc with
  | zero => simp [bufioReader.ReadStringLoop] at h
  | succ fuel ih =>
    simp only [bufioReader.ReadStringLoop] at h
    split at h
    · rename_i pre x post hspan
      simp only [Option.some.injEq, Prod.mk.injEq] at h
      rw [← h.2]
      have hb : b.buf = pre ++ x :: post := by
        have h1 := List.takeWhile_append_dropWhile (fun x => x != delim) b.buf
        rw [List.span_eq_take_drop] at hspan
        simp only [Prod.mk.injEq] at hspan
        rw [hspan.1, hspan.2] at h1
        exact h1.symm
      simp only [hb, List.length_append, List.length_cons]
      omega
    · split at h
      · simp at h
      · split_ifs at h
        · have := ih { b with buf := [] } _ h
          simp only [List.length_nil] at this
          omega
        · have h1 := ih _ _ h
          have h2 := fill_measure 100 b
          omega

theorem readLoop_returns (fuel : Nat) (r : bufioReader) (delim line : List Nat)
    (hd : delim ≠ []) (h : r.buf.length + r.rd.rx.length < fuel) :
    ∃ res r', readLoop bufioReader.asReader fuel r delim line = Run.done (res, r') := by
  obtain ⟨c, hc⟩ : ∃ c, delim.getLast? = some c := by
    cases h : delim.getLast? with
    | none => exact absurd (List.getLast?_eq_none_iff.mp h) hd
    | some c => exact ⟨c, rfl⟩
  induction fuel generalizing r line with
  | zero => omega
  | succ fuel ih =>
    obtain ⟨res, r1, h1⟩ := ReadStringLoop_returns (2 * r.rd.rx.length + 4) r c []
      (Or.inr (by split_ifs <;> omega))
    have hstep : bufioReader.asReader.ReadString r c = some (res, r1) := h1
    obtain ⟨s, e⟩ := res
    cases e with
    | some e =>
      simp only [readLoop, hc, hstep]
      exact ⟨_, _, rfl⟩
    | none =>
      simp only [readLoop, hc, hstep]
      split_ifs
      · exact ⟨_, _, rfl⟩
      · apply ih
        have := ReadStringLoop_consumes _ _ _ _ _ _ h1
        omega

/-- For a non-empty answer `readuntil` returns. -/
theorem readuntil_returns (p : pmodem) (answer : List Nat) (h : answer ≠ []) :
    ∃ res q, readuntil p answer = Run.done (res, q) := by
  obtain ⟨res, r, hr⟩ := readLoop_returns (p.device.rx.length + 2) (NewReader p.device)
    answer [] h (by simp [NewReader])
  refine ⟨res, { p with device := r.rd }, ?_⟩
  simp only [readuntil, read, hr]

/-! ## Reading into a short buffer -/

theorem copy_length (b msg : List Nat) : (copy b msg).length = b.length := by
  simp only [copy, List.length_append, List.length_take, List.length_drop]
  omega

theorem copy_take (b msg : List Nat) :
    (copy b msg).take (min b.length msg.length) = msg.take (min b.length msg.length) := by
  unfold copy
  rw [List.take_append_of_le_length (by rw [List.length_take]), List.take_take]
  congr 1
  omega

theorem copy_drop (b msg : List Nat) :
    (copy b msg).drop (min b.length msg.length) = b.drop (min b.length msg.length) := by
  unfold copy
  rcases Nat.le_total b.length msg.length with h | h
  · rw [Nat.min_eq_left h, List.drop_of_length_le (by omega : b.length ≤ msg.length)]
    rw [List.append_nil, List.drop_of_length_le (by rw [List.length_take]; omega)]
    rw [List.drop_of_length_le (le_refl _)]
  · rw [Nat.min_eq_right h, List.take_of_length_le h, List.drop_left]

theorem copy_short (b msg : List Nat) (h : b.length ≤ msg.length) :
    copy b msg = msg.take b.length := by
  unfold copy
  rw [List.drop_of_length_le h, List.append_nil]

/-- C11: on a healthy session whose inbound queue starts with the message `m`,
`Read(b)` takes `m` off the queue, overwrites the first `min(len(b), len(m))`
bytes of `b` with those of `m` and leaves the rest of `b` alone, and returns
`n = len(m)` with a nil error.  When `len(b) < len(m)` the count exceeds
`len(b)`, `b` holds the first `len(b)` bytes of `m`, and the bytes of `m`
beyond them are nowhere afterwards: the session and the buffer come out the
same for every message that starts with the same `len(b)` bytes. -/
theorem Read_truncates (p : pmodem) (m : List Nat) (rest : List (List Nat)) (b : List Nat)
    (herr : p.err = none) (hclose : p.closecalled = false) (hq : p.rxbuffer = m :: rest) :
    ∃ b' n, Read p b = some ({ p with rxbuffer := rest }, b', n, none)
      ∧ n = m.length
      ∧ b'.length = b.length
      ∧ b'.take (min b.length m.length) = m.take (min b.length m.length)
      ∧ b'.drop (min b.length m.length) = b.drop (min b.length m.length)
      ∧ (b.length < m.length →
          b.length < n
          ∧ b' = m.take b.length
          ∧ ∀ m', m'.take b.length = m.take b.length →
              ∃ n', Read { p with rxbuffer := m' :: rest } b
                = some ({ p with rxbuffer := rest }, b', n', none)) := by
  refine ⟨copy b m, m.length, ?_, rfl, copy_length b m, copy_take b m, copy_drop b m, ?_⟩
  · simp [Read, checkState, herr, hclose, hq]
  · intro hlt
    refine ⟨hlt, copy_short b m (by omega), ?_⟩
    intro m' hm'
    have hlen : b.length ≤ m'.length := by
      have h1 := congrArg List.length hm'
      simp only [List.length_take] at h1
      omega
    refine ⟨m'.length, ?_⟩
    simp [Read, checkState, herr, hclose, copy_short b m (by omega), copy_short b m' hlen, hm']

theorem Read_truncates_witness :
    ∃ b' n, Read queuedSession [0, 0, 0]
        = some ({ queuedSession with rxbuffer := [[20, 21]] }, b', n, none)
      ∧ n = [10, 11, 12, 13, 14, 15].length
      ∧ b'.length = [0, 0, 0].length
      ∧ b'.take (min [0, 0, 0].length [10, 11, 12, 13, 14, 15].length)
          = [10, 11, 12, 13, 14, 15].take (min [0, 0, 0].length [10, 11, 12, 13, 14, 15].length)
      ∧ b'.drop (min [0, 0, 0].length [10, 11, 12, 13, 14, 15].length)
          = [0, 0, 0].drop (min [0, 0, 0].length [10, 11, 12, 13, 14, 15].length)
      ∧ ([0, 0, 0].length < [10, 11, 12, 13, 14, 15].length →
          [0, 0, 0].length < n
          ∧ b' = [10, 11, 12, 13, 14, 15].take [0, 0, 0].length
          ∧ ∀ m', m'.take [0, 0, 0].length = [10, 11, 12, 13, 14, 15].take [0, 0, 0].length →
              ∃ n', Read { queuedSession with rxbuffer := m' :: [[20, 21]] } [0, 0, 0]
                = some ({ queuedSession with rxbuffer := [[20, 21]] }, b', n', none)) :=
  Read_truncates queuedSession [10, 11, 12, 13, 14, 15] [[20, 21]] [0, 0, 0]
    (by decide) (by decide) (by decide)

/-- Evaluated: a `Read` into three bytes takes the six byte message, returns 6
and the first three bytes; the `Read` that follows returns the next message. -/
theorem Read_truncates_example :
    Read queuedSession [0, 0, 0]
        = some ({ queuedSession with rxbuffer := [[20, 21]] }, [10, 11, 12], 6, none)
      ∧ Read { queuedSession with rxbuffer := [[20, 21]] } [0, 0, 0]
        = some ({ queuedSession with rxbuffer := [] }, [20, 21, 0], 2, none) := by
  decide

end Ptc
